import Mathlib

/-!
Verification of the semantic core of the `noname` language server.

The development shallowly embeds the Rust modules
`src/metadata/symbol_table.rs`, `src/metadata/st_manager.rs`,
`src/ast/translator.rs` and `ls_framework/src/language_def.rs`.
Panicking constructs of the source (`unwrap`, `expect`, `todo!`,
`panic!`) are embedded as `Except Panic` values, so that a panic is an
observable outcome rather than divergence.  The `indextree` arenas of
the source are embedded as ordinary inductive trees (the arena holds a
strict tree with parent-to-children links only, so the two views are
isomorphic).

A few auxiliary items of the repository (`metadata/ast.rs` alias
`ast/tree.rs`, `metadata/types.rs`, `utils.rs`) are not part of the
provided sources; the definitions that stand in for them are marked
`Modelled from the spec:` in their doc comments.
-/

namespace Noname
set_option genSizeOfSpec false in
/-- Source position, embedding `tower_lsp::lsp_types::Position`:
zero-based `line` and `character`. -/
structure Position where
  line : Nat
  character : Nat

/-- Modelled from the spec: the ordering on positions used by
`scope.range.start < position` in the source comes from the external
`lsp_types` crate, whose `Position` derives `PartialOrd`/`Ord` on the
fields in declaration order, i.e. lexicographic on (line, character). -/
def Position.lt (a b : Position) : Bool :=
  a.line < b.line || (a.line == b.line && a.character < b.character)

set_option genSizeOfSpec false in
/-- Source range, embedding `tower_lsp::lsp_types::Range`.  The Rust
field `end` is a Lean keyword and is rendered `endPos`. -/
structure Range where
  start : Position
  endPos : Position

set_option genSizeOfSpec false in
/-- Embeds `BaseType` of `ast/tree.rs`; the translator only ever builds
`BaseType::Int`, the sole variant the provided sources mention. -/
inductive BaseType where
  | Int
deriving DecidableEq

set_option genSizeOfSpec false in
/-- Embeds `Type` of `metadata/types.rs` / `ast/tree.rs` (named
`MetaType` here because `Type` is a Lean keyword).  Modelled from the
spec: a symbol carries an "optional type"; the translator constructs
`Type::Base(BaseType::Int)` for a `base_type` syntax node. -/
inductive MetaType where
  | Base (b : BaseType)
deriving DecidableEq

set_option genSizeOfSpec false in
/-- Modelled from the spec: payload of the `TypeDec` node kind.  The
symbol-table builder matches `NodeKind::TypeDec(_type_dec_type)` and
ignores the payload, so a placeholder variant suffices. -/
inductive TypeDecType where
  | mk
deriving DecidableEq

set_option genSizeOfSpec false in
/-- Embeds `NodeKind` of the AST model.  Modelled from the spec: "kind
(tagged variant: Root, declaration kinds, Name, Type, generically named
rule-defined kinds)"; the variants are the ones matched by the provided
sources (`Root`, `ConstantDec`, `VariableDec`, `TypeDec`, `Name`,
`Type`) plus `Node(name)` used by `language_def.rs`. -/
inductive NodeKind where
  | Root
  | ConstantDec
  | VariableDec
  | TypeDec (t : TypeDecType)
  | Name
  | Type (t : MetaType)
  | Node (name : String)
deriving DecidableEq

/-- Embeds `Node` of the AST model plus the arena's parent-to-children
links: an AST node is its kind, source range, raw text slice, and its
children in order. -/
inductive AstNode where
  | mk (kind : NodeKind) (range : Range) (content : String)
      (children : List AstNode)

def AstNode.kind : AstNode → NodeKind
  | .mk k _ _ _ => k

def AstNode.range : AstNode → Range
  | .mk _ r _ _ => r

def AstNode.content : AstNode → String
  | .mk _ _ c _ => c

def AstNode.children : AstNode → List AstNode
  | .mk _ _ _ ch => ch

set_option genSizeOfSpec false in
/-- Embeds `Ast`: an arena of nodes with an optional root id. -/
structure Ast where
  root : Option AstNode

/-- Modelled from the spec: `VisitNode::get_child_of_kind(kind)` of the
missing `metadata/ast.rs` returns the first direct child of the given
kind, if any (the builder unwraps the result). -/
def AstNode.get_child_of_kind (n : AstNode) (k : NodeKind) : Option AstNode :=
  n.children.find? (fun c => c.kind == k)

/-- Modelled from the spec: `VisitNode::get_type()` of the missing
`metadata/ast.rs` extracts the declared type of a declaration node — the
payload of its first `Type(_)` child, when present ("Symbol — name,
declaration range, optional type, ..."). -/
def AstNode.get_type (n : AstNode) : Option MetaType :=
  match n.children.find? (fun c => match c.kind with
    | NodeKind.Type _ => true
    | _ => false) with
  | some (AstNode.mk (NodeKind.Type t) _ _ _) => some t
  | _ => none

set_option genSizeOfSpec false in
/-- Embeds `Symbol` of `metadata/symbol_table.rs`: name, declaration
range, optional type, usage ranges. -/
structure Symbol where
  name : String
  def_position : Range
  type_ : Option MetaType
  usages : List Range

/-- Embeds `Symbol::new`: fresh symbol with no usages. -/
def Symbol.new (name : String) (def_position : Range)
    (type_ : Option MetaType) : Symbol :=
  { name := name, def_position := def_position, type_ := type_, usages := [] }

set_option genSizeOfSpec false in
/-- Embeds `Symbols`: per-category buckets of symbols in declaration
order. -/
structure Symbols where
  types : List Symbol
  constants : List Symbol
  «variables» : List Symbol
  functions : List Symbol

instance : Inhabited Symbols :=
  ⟨{ types := [], constants := [], «variables» := [], functions := [] }⟩

/-- Embeds `Symbols::position_filter`: retain only symbols whose
declaration range ends strictly before `position`. -/
def Symbols.position_filter (s : Symbols) (position : Position) : Symbols :=
  { types := s.types.filter (fun x => Position.lt x.def_position.endPos position),
    constants := s.constants.filter (fun x => Position.lt x.def_position.endPos position),
    «variables» := s.«variables».filter (fun x => Position.lt x.def_position.endPos position),
    functions := s.functions.filter (fun x => Position.lt x.def_position.endPos position) }

/-- Embeds `Symbols::add`: position-filter `other`, then append it
bucket-wise after `self`. -/
def Symbols.add (s : Symbols) (other : Symbols) (position : Position) : Symbols :=
  let o := other.position_filter position
  { types := s.types ++ o.types,
    constants := s.constants ++ o.constants,
    «variables» := s.«variables» ++ o.«variables»,
    functions := s.functions ++ o.functions }

set_option genSizeOfSpec false in
/-- Embeds `ScopeSymbolTable`: one scope's source range and symbol
buckets. -/
structure ScopeSymbolTable where
  range : Range
  symbols : Symbols

/-- One node of the symbol-table arena together with its child scopes;
the `indextree::Arena<ScopeSymbolTable>` plus `root_id` of the source
form exactly such a tree. -/
inductive ScopeTree where
  | node (scope : ScopeSymbolTable) (children : List ScopeTree)

def ScopeTree.scope : ScopeTree → ScopeSymbolTable
  | .node sc _ => sc

def ScopeTree.children : ScopeTree → List ScopeTree
  | .node _ ch => ch

set_option genSizeOfSpec false in
/-- Embeds `SymbolTable`: arena plus optional root (the default value has
no root, as in `SymbolTable::default()`). -/
structure SymbolTable where
  root : Option ScopeTree

instance : Inhabited SymbolTable := ⟨{ root := none }⟩

/-- The loop guard of `get_symbols_in_scope`:
`scope.range.start < position && position < scope.range.end`. -/
def strictlyContains (r : Range) (position : Position) : Bool :=
  Position.lt r.start position && Position.lt position r.endPos

/-- Embeds the `while subscope_exists` loop of
`SymbolTable::get_symbols_in_scope`: scan the current scope's children in
order; on the first child whose range strictly contains `position`,
merge that child's (position-filtered) symbols and continue scanning the
child's own children; when no child matches, return the accumulated
symbols. -/
def scopeLoop : List ScopeTree → Position → Symbols → Symbols
  | [], _, symbols => symbols
  | ScopeTree.node scope grandchildren :: rest, position, symbols =>
    if strictlyContains scope.range position then
      scopeLoop grandchildren position (symbols.add scope.symbols position)
    else
      scopeLoop rest position symbols

/-- Embeds `SymbolTable::get_symbols_in_scope`: start from the root
scope's full symbol set (unfiltered), then run the descent loop. -/
def SymbolTable.get_symbols_in_scope (t : SymbolTable) (position : Position) :
    Option Symbols :=
  match t.root with
  | none => none
  | some (ScopeTree.node scope children) =>
    some (scopeLoop children position scope.symbols)

/-- Embeds `SymbolTable::get_top_level_symbols`: the root scope's symbol
set, if a root exists. -/
def SymbolTable.get_top_level_symbols (t : SymbolTable) : Option Symbols :=
  match t.root with
  | none => none
  | some (ScopeTree.node scope _) => some scope.symbols

set_option genSizeOfSpec false in
/-- The panicking constructs of the embedded sources, as observable
outcomes: `unwrapNone` for `Option::unwrap`/`Result::unwrap` on an
absent value, `notYetImplemented` for `todo!()`, `explicitPanic` for
`panic!()`, `parseRulesFailed` for the `panic!` in
`LanguageDefinition::load`, `alreadyLoaded` for the `unwrap` on
`OnceCell::set` of an already-set cell, and `notLoaded` for the `expect`
in `LanguageDefinition::get`. -/
inductive Panic where
  | unwrapNone
  | notYetImplemented
  | explicitPanic
  | parseRulesFailed
  | alreadyLoaded
  | notLoaded

/-- Embeds `SymbolTable::get_symbol_at_pos`, whose body is `todo!()`:
every call panics unconditionally. -/
def SymbolTable.get_symbol_at_pos (_t : SymbolTable) (_symbol : String)
    (_position : Position) : Except Panic (Option Symbol) :=
  Except.error Panic.notYetImplemented

/-- Embeds the `for child_visit_node in root_visit_node.get_children()`
loop of `ScopeSymbolTable::parse`: classify each direct child by kind
into the matching bucket (push = append at the back, so source order is
preserved); `get_child_of_kind(Name).unwrap()` panics when a declaration
has no `Name` child; every other kind is skipped. -/
def ScopeSymbolTable.parseChildren :
    List AstNode → ScopeSymbolTable → Except Panic ScopeSymbolTable
  | [], table => Except.ok table
  | child :: rest, table =>
    match child.kind with
    | NodeKind.ConstantDec =>
      match child.get_child_of_kind NodeKind.Name with
      | none => Except.error Panic.unwrapNone
      | some name_node =>
        ScopeSymbolTable.parseChildren rest
          { table with symbols := { table.symbols with
              constants := table.symbols.constants ++
                [Symbol.new name_node.content child.range child.get_type] } }
    | NodeKind.VariableDec =>
      match child.get_child_of_kind NodeKind.Name with
      | none => Except.error Panic.unwrapNone
      | some name_node =>
        ScopeSymbolTable.parseChildren rest
          { table with symbols := { table.symbols with
              «variables» := table.symbols.«variables» ++
                [Symbol.new name_node.content child.range child.get_type] } }
    | NodeKind.TypeDec _ =>
      match child.get_child_of_kind NodeKind.Name with
      | none => Except.error Panic.unwrapNone
      | some name_node =>
        ScopeSymbolTable.parseChildren rest
          { table with symbols := { table.symbols with
              types := table.symbols.types ++
                [Symbol.new name_node.content child.range child.get_type] } }
    | _ => ScopeSymbolTable.parseChildren rest table

/-- Embeds `ScopeSymbolTable::parse`: a fresh table carrying the scope
node's range, filled from the scope node's direct children. -/
def ScopeSymbolTable.parse (root_visit_node : AstNode) :
    Except Panic ScopeSymbolTable :=
  ScopeSymbolTable.parseChildren root_visit_node.children
    { range := root_visit_node.range, symbols := default }

/-- Embeds `SymbolTable::parse_scope`'s recursion over
`visit_node.get_subscopes()`.  Modelled from the spec:
`get_subscopes` of the missing `metadata/ast.rs` yields the nearest
scope-introducing descendants ("A scope's children in the table are
exactly the nearest nested scope-introducing descendants"), with the
scope-introducing kinds given by the predicate `scopeKinds` (the
language definition's `is_scope` rules).  The walk over a child list:
a scope-introducing child becomes one subscope (recursively built from
its own children); any other child is looked through. -/
def parse_scope_list (scopeKinds : NodeKind → Bool) :
    List AstNode → Except Panic (List ScopeTree)
  | [] => Except.ok []
  | AstNode.mk k r c grandchildren :: rest => do
    let firsts ←
      if scopeKinds k then do
        let table ← ScopeSymbolTable.parse (AstNode.mk k r c grandchildren)
        let subs ← parse_scope_list scopeKinds grandchildren
        pure [ScopeTree.node table subs]
      else
        parse_scope_list scopeKinds grandchildren
    let others ← parse_scope_list scopeKinds rest
    pure (firsts ++ others)

/-- Embeds `SymbolTable::new`: parse the root scope from
`ast.visit_root()` (which unwraps the optional root id) and attach the
recursively parsed subscopes. -/
def SymbolTable.new (scopeKinds : NodeKind → Bool) (ast : Ast) :
    Except Panic SymbolTable :=
  match ast.root with
  | none => Except.error Panic.unwrapNone
  | some root => do
    let table ← ScopeSymbolTable.parse root
    let subs ← parse_scope_list scopeKinds root.children
    pure { root := some (ScopeTree.node table subs) }

set_option genSizeOfSpec false in
/-- Embeds `SymbolTableManager` of `metadata/st_manager.rs`. -/
structure SymbolTableManager where
  symbol_table : SymbolTable

/-- Embeds `SymbolTableManager::new`: build the table from the AST. -/
def SymbolTableManager.new (scopeKinds : NodeKind → Bool) (ast : Ast) :
    Except Panic SymbolTableManager := do
  let symbol_table ← SymbolTable.new scopeKinds ast
  pure { symbol_table := symbol_table }

/-- Embeds `SymbolTableQuery::get_symbols_at_pos` for the manager:
delegates to `SymbolTable::get_symbols_in_scope`. -/
def SymbolTableManager.get_symbols_at_pos (m : SymbolTableManager)
    (position : Position) : Option Symbols :=
  m.symbol_table.get_symbols_in_scope position

/-- Embeds `SymbolTableQuery::get_symbol_at_pos` for the manager:
delegates to `SymbolTable::get_symbol_at_pos`. -/
def SymbolTableManager.get_symbol_at_pos (m : SymbolTableManager)
    (name : String) (position : Position) : Except Panic (Option Symbol) :=
  m.symbol_table.get_symbol_at_pos name position

/-- Embeds `SymbolTableEditor::update`: `*self = SymbolTableManager::new(ast)` —
the current table is discarded wholesale and rebuilt from the AST. -/
def SymbolTableManager.update (scopeKinds : NodeKind → Bool)
    (_m : SymbolTableManager) (ast : Ast) : Except Panic SymbolTableManager :=
  SymbolTableManager.new scopeKinds ast

/-- Embeds a `tree_sitter::Node` of the concrete syntax tree consumed by
the translator: syntactic kind, source range (already converted to
line/character form, see `ts_range_to_lsp_range`), byte span into the
source text, and the children in order, each optionally labelled with
the grammar field it fills. -/
inductive TSNode where
  | mk (kind : String) (range : Range) (startByte endByte : Nat)
      (children : List (Option String × TSNode))

def TSNode.tsKind : TSNode → String
  | .mk k _ _ _ _ => k

def TSNode.tsRange : TSNode → Range
  | .mk _ r _ _ _ => r

def TSNode.startByte : TSNode → Nat
  | .mk _ _ s _ _ => s

def TSNode.endByte : TSNode → Nat
  | .mk _ _ _ e _ => e

def TSNode.tsChildren : TSNode → List (Option String × TSNode)
  | .mk _ _ _ _ ch => ch

/-- Embeds `tree_sitter::Node::child_by_field_name`: the first child
carrying the given field label. -/
def TSNode.child_by_field_name (n : TSNode) (field : String) : Option TSNode :=
  (n.tsChildren.find? (fun c => c.fst == some field)).map Prod.snd

/-- Modelled from the spec: `utils::get_node_text` (the `utils` module is
not among the provided sources) returns the slice of the source text
covered by the node's byte span; for the ASCII sources considered here,
byte offsets coincide with character offsets. -/
def get_node_text (node : TSNode) (source_code : String) : String :=
  String.mk ((source_code.toList.drop node.startByte).take
    (node.endByte - node.startByte))

/-- Modelled from the spec: `utils::ts_range_to_lsp_range` converts a
tree-sitter range to the line/character `Range`; the embedded `TSNode`
already stores its range in that form, so the conversion is the
identity here. -/
def ts_range_to_lsp_range (r : Range) : Range := r

/-- Embeds Rust's `Option::unwrap`: panic on `None`. -/
def optionUnwrap : Option α → Except Panic α
  | some a => Except.ok a
  | none => Except.error Panic.unwrapNone

namespace TreesitterTranslator

/-- Embeds `TreesitterTranslator::parse_name`: always produces a `Name`
node holding the node's text. -/
def parse_name (source_code : String) (node : TSNode) : Option AstNode :=
  some (AstNode.mk NodeKind.Name (ts_range_to_lsp_range node.tsRange)
    (get_node_text node source_code) [])

/-- Embeds `TreesitterTranslator::parse_type`: a `base_type` node maps to
`Type::Base(BaseType::Int)`; `type_name`, `specialized_type`,
`header_stack_type` and `tuple_type` hit `todo!()`; any other kind hits
`panic!()`. -/
def parse_type (source_code : String) (node : TSNode) :
    Except Panic (Option AstNode) := do
  let type_type : MetaType ←
    match node.tsKind with
    | "base_type" => Except.ok (MetaType.Base BaseType.Int)
    | "type_name" => Except.error Panic.notYetImplemented
    | "specialized_type" => Except.error Panic.notYetImplemented
    | "header_stack_type" => Except.error Panic.notYetImplemented
    | "tuple_type" => Except.error Panic.notYetImplemented
    | _ => Except.error Panic.explicitPanic
  pure (some (AstNode.mk (NodeKind.Type type_type)
    (ts_range_to_lsp_range node.tsRange) (get_node_text node source_code) []))

/-- Embeds `TreesitterTranslator::parse_const_dec`: build a
`ConstantDec` node, then append the type child
(`child_by_field_name("type").unwrap()` then `parse_type(..).unwrap()`)
and the name child (`child_by_field_name("name").unwrap()` then
`parse_name(..).unwrap()`); the value child is not yet translated
(source comment `TODO: Add value node`). -/
def parse_const_dec (source_code : String) (node : TSNode) :
    Except Panic (Option AstNode) := do
  let type_field ← optionUnwrap (node.child_by_field_name "type")
  let type_opt ← parse_type source_code type_field
  let type_node ← optionUnwrap type_opt
  let name_field ← optionUnwrap (node.child_by_field_name "name")
  let name_node ← optionUnwrap (parse_name source_code name_field)
  pure (some (AstNode.mk NodeKind.ConstantDec
    (ts_range_to_lsp_range node.tsRange) (get_node_text node source_code)
    [type_node, name_node]))

/-- Embeds the child loop of `TreesitterTranslator::parse_root`: a
`constant_declaration` child is translated via `parse_const_dec`; any
other kind yields `None` and is dropped; `Some` results are appended in
order.  A panic inside `parse_const_dec` aborts the whole walk. -/
def parse_root_children (source_code : String) :
    List (Option String × TSNode) → Except Panic (List AstNode)
  | [] => Except.ok []
  | (_, child) :: rest => do
    let new_child ←
      match child.tsKind with
      | "constant_declaration" => parse_const_dec source_code child
      | _ => pure none
    let restNodes ← parse_root_children source_code rest
    pure (match new_child with
      | some n => n :: restNodes
      | none => restNodes)

/-- Embeds `TreesitterTranslator::parse_root` followed by
`TreesitterTranslator::translate`: the root AST node carries kind
`Root`, the tree root's range and the whole source text; the resulting
`Ast` has that node as its root. -/
def translate (source_code : String) (tree : TSNode) : Except Panic Ast := do
  let children ← parse_root_children source_code tree.tsChildren
  pure { root := some (AstNode.mk NodeKind.Root
    (ts_range_to_lsp_range tree.tsRange) source_code children) }

end TreesitterTranslator

set_option genSizeOfSpec false in
/-- Embeds `SymbolCompletionType` of `ls_framework/src/language_def.rs`. -/
inductive SymbolCompletionType where
  | Text
  | Method
  | Function
  | Constructor
  | Field
  | Variable
  | Class
  | Interface
  | Module
  | Property
  | Unit
  | Value
  | Enum
  | Keyword
  | Snippet
  | Color
  | File
  | Reference
  | Folder
  | EnumMember
  | Constant
  | Struct
  | Event
  | Operator
  | TypeParameter

namespace LanguageDef

set_option genSizeOfSpec false in
/-- Embeds `TreesitterNodeQuery` of `language_def.rs`. -/
inductive TreesitterNodeQuery where
  | Path (queries : List TreesitterNodeQuery)
  | Kind (name : String)
  | Field (name : String)

set_option genSizeOfSpec false in
/-- Embeds `DirectOrRule` of `language_def.rs`. -/
inductive DirectOrRule where
  | Direct (kind : NodeKind)
  | Rule (name : String)

set_option genSizeOfSpec false in
set_option genInjectivity false in
/-- Embeds `Child` of `language_def.rs`. -/
structure Child where
  query : TreesitterNodeQuery
  rule : DirectOrRule
  symbol_usage : Bool

set_option genSizeOfSpec false in
/-- Embeds `Multiplicity` of `language_def.rs`. -/
inductive Multiplicity where
  | One (child : Child)
  | Maybe (child : Child)
  | Many (child : Child)

set_option genSizeOfSpec false in
/-- Embeds the `Symbol` enum of `language_def.rs` (distinct from the
symbol table's `Symbol` record): a rule declares a symbol of some
category, marks a usage, or neither. -/
inductive Symbol where
  | Init (category : String)
  | Usage
  | None

set_option genSizeOfSpec false in
set_option genInjectivity false in
/-- Embeds `Rule` of `language_def.rs`. -/
structure Rule where
  name : String
  symbol : Symbol
  is_scope : Bool
  children : List Multiplicity

end LanguageDef

set_option genSizeOfSpec false in
set_option genInjectivity false in
/-- Embeds `LanguageDefinition` of `language_def.rs`. -/
structure LanguageDefinition where
  symbol_types : List (String × SymbolCompletionType)
  ast_rules : List LanguageDef.Rule

/-- Embeds `LanguageDefinition::rule_with_name`. -/
def LanguageDefinition.rule_with_name (d : LanguageDefinition) (name : String) :
    Option LanguageDef.Rule :=
  d.ast_rules.find? (fun rule => rule.name == name)

/-- Embeds `LanguageDefinition::get_scope_nodes`: the kinds of rules
flagged `is_scope`. -/
def LanguageDefinition.get_scope_nodes (d : LanguageDefinition) : List NodeKind :=
  (d.ast_rules.filter (fun rule => rule.is_scope)).map
    (fun rule => NodeKind.Node rule.name)

/-- Embeds `LanguageDefinition::load`.  The process-wide
`OnceCell INSTANCE` is passed explicitly as `instanceState`; the
external `ron` deserializer is abstracted as `parseRuleSet` (returning
`none` on a malformed document).  The source prepends
`#![enable(unwrap_variant_newtypes)]` to the document before parsing; a
parse failure hits `panic!` inside `unwrap_or_else`, and a `set` on an
already-filled cell returns `Err`, which the trailing `unwrap` turns
into a panic. -/
def LanguageDefinition.load
    (parseRuleSet : String → Option LanguageDefinition)
    (instanceState : Option LanguageDefinition)
    (language_definition : String) : Except Panic (Option LanguageDefinition) :=
  let language_def_modified :=
    "#![enable(unwrap_variant_newtypes)]\n" ++ language_definition
  match parseRuleSet language_def_modified with
  | none => Except.error Panic.parseRulesFailed
  | some parsed =>
    match instanceState with
    | some _ => Except.error Panic.alreadyLoaded
    | none => Except.ok (some parsed)

/-- Embeds `LanguageDefinition::get`: `INSTANCE.get().expect(..)` —
panics when `load` has not succeeded yet. -/
def LanguageDefinition.get (instanceState : Option LanguageDefinition) :
    Except Panic LanguageDefinition :=
  match instanceState with
  | none => Except.error Panic.notLoaded
  | some d => Except.ok d

/-- Specification-side description of the symbol a declaration-shaped
node contributes: its `Name` child's text, its own range, its declared
type (absent when the node has no `Name` child). -/
def declSymbolOf (c : AstNode) : Option Symbol :=
  (c.get_child_of_kind NodeKind.Name).map
    (fun name_node => Symbol.new name_node.content c.range c.get_type)

/-- Specification-side list of the type symbols contributed by a child
list, in declaration (source) order. -/
def specTypes (children : List AstNode) : List Symbol :=
  children.filterMap (fun c => match c.kind with
    | NodeKind.TypeDec _ => declSymbolOf c
    | _ => none)

/-- Specification-side list of the constant symbols contributed by a
child list, in declaration (source) order. -/
def specConstants (children : List AstNode) : List Symbol :=
  children.filterMap (fun c => match c.kind with
    | NodeKind.ConstantDec => declSymbolOf c
    | _ => none)

/-- Specification-side list of the variable symbols contributed by a
child list, in declaration (source) order. -/
def specVariables (children : List AstNode) : List Symbol :=
  children.filterMap (fun c => match c.kind with
    | NodeKind.VariableDec => declSymbolOf c
    | _ => none)

/-- Decidable check that no scope in a forest of scope trees holds any
function symbol. -/
def scopesNoFunctions : List ScopeTree → Bool
  | [] => true
  | ScopeTree.node sc ch :: rest =>
    sc.symbols.functions.isEmpty && scopesNoFunctions ch &&
      scopesNoFunctions rest

/-- Decidable check that no scope of a symbol table holds any function
symbol. -/
def SymbolTable.noFunctionSymbols (t : SymbolTable) : Bool :=
  match t.root with
  | none => true
  | some rt => scopesNoFunctions [rt]

/-- Shorthand constructor for positions. -/
def mkPos (l c : Nat) : Position := { line := l, character := c }

/-- Shorthand constructor for ranges. -/
def mkRange (s e : Position) : Range := { start := s, endPos := e }

/-- Shorthand constructor for the four symbol buckets. -/
def mkSymbols (t c v f : List Symbol) : Symbols :=
  { types := t, constants := c, «variables» := v, functions := f }

/-- The `var a` symbol of the declare-before-use scenario: declared at
`pa`. -/
def c1_var_a (a : String) (pa : Position) : Symbol :=
  Symbol.new a (mkRange pa pa) none

/-- The `var b` symbol of the declare-before-use scenario: declared at
`pb`. -/
def c1_var_b (b : String) (pb : Position) : Symbol :=
  Symbol.new b (mkRange pb pb) none

/-- The declare-before-use scenario table: an empty root scope with one
block scope spanning `pa..pb` that declares `var a` at `pa` and `var b`
at `pb`. -/
def c1_block_table (a b : String) (pa pb : Position) : SymbolTable :=
  { root := some (ScopeTree.node ⟨mkRange pa pb, default⟩
      [ScopeTree.node
        ⟨mkRange pa pb, mkSymbols [] [] [c1_var_a a pa, c1_var_b b pb] []⟩
        []]) }

/-- Root-level symbol of the C4/C10 witness scenarios, declared on
line 5 — after the query position. -/
def c4_root_sym : Symbol :=
  Symbol.new "g" (mkRange (mkPos 5 0) (mkPos 5 10)) none

/-- Block-local symbol of the C4/C10 witness scenarios, declared before
the query position. -/
def c4_block_sym : Symbol :=
  Symbol.new "a" (mkRange (mkPos 0 1) (mkPos 0 3)) none

/-- Table of the C4 witness scenario: a root scope declaring
`c4_root_sym`, with one nested block scope declaring `c4_block_sym`. -/
def c4_table : SymbolTable :=
  { root := some (ScopeTree.node
      ⟨mkRange (mkPos 0 0) (mkPos 9 0),
        mkSymbols [] [c4_root_sym] [] []⟩
      [ScopeTree.node
        ⟨mkRange (mkPos 0 0) (mkPos 2 0),
          mkSymbols [] [] [c4_block_sym] []⟩
        []]) }

/-- Table of the C10 witness scenario: root declaring `c4_root_sym`
with one child block scope on lines 1-3 declaring `c4_block_sym`. -/
def c10_table : SymbolTable :=
  { root := some (ScopeTree.node
      ⟨mkRange (mkPos 0 0) (mkPos 9 0),
        mkSymbols [] [c4_root_sym] [] []⟩
      [ScopeTree.node
        ⟨mkRange (mkPos 1 0) (mkPos 3 0),
          mkSymbols [] [] [c4_block_sym] []⟩
        []]) }

/-- Kinds the symbol-table builder classifies as declarations. -/
def isDeclKind : NodeKind → Bool
  | NodeKind.ConstantDec => true
  | NodeKind.VariableDec => true
  | NodeKind.TypeDec _ => true
  | _ => false

/-- A declaration-shaped AST node of the C8/C9 witness scenario: kind
`k`, one `Name` child holding `nm`, spanning line `line`. -/
def c8_decl (k : NodeKind) (nm : String) (line : Nat) : AstNode :=
  AstNode.mk k (mkRange (mkPos line 0) (mkPos line 10)) ""
    [AstNode.mk NodeKind.Name (mkRange (mkPos line 6) (mkPos line 8)) nm []]

/-- Root node of the C8/C9 witness scenario: two constants, one
variable and one type declaration, in source order. -/
def c8_root : AstNode :=
  AstNode.mk NodeKind.Root (mkRange (mkPos 0 0) (mkPos 4 0)) ""
    [c8_decl NodeKind.ConstantDec "c1" 0,
     c8_decl NodeKind.VariableDec "v1" 1,
     c8_decl NodeKind.ConstantDec "c2" 2,
     c8_decl (NodeKind.TypeDec TypeDecType.mk) "t1" 3]

/-- Scope predicate of the C8/C9 witness scenario: no kind introduces a
scope. -/
def c8_sk : NodeKind → Bool := fun _ => false

/-- The symbol the witness declaration named `nm` on line `line`
contributes. -/
def c8_sym (nm : String) (line : Nat) : Symbol :=
  Symbol.new nm (mkRange (mkPos line 0) (mkPos line 10)) none

/-- Root scope record of the C8/C9 witness scenario. -/
def c8_scope : ScopeSymbolTable :=
  ⟨mkRange (mkPos 0 0) (mkPos 4 0),
    mkSymbols [c8_sym "t1" 3] [c8_sym "c1" 0, c8_sym "c2" 2]
      [c8_sym "v1" 1] []⟩

/-- The symbol table the C8/C9 witness scenario builds. -/
def c8_table : SymbolTable :=
  { root := some (ScopeTree.node c8_scope []) }

/-- AST of the C7 witness scenario: a bare root node. -/
def c7_ast : Ast :=
  { root := some (AstNode.mk NodeKind.Root (mkRange (mkPos 0 0) (mkPos 1 0))
      "" []) }

/-- Manager the C7 witness scenario's update produces. -/
def c7_manager1 : SymbolTableManager :=
  ⟨{ root := some (ScopeTree.node
      ⟨mkRange (mkPos 0 0) (mkPos 1 0), default⟩ []) }⟩

/-- Source text of the C2 failing scenario: a constant declaration whose
declared type is a named type, not a base type. -/
def c2_source : String := "const tRow x = 5;"

/-- CST type child of kind `type_name` — a kind `parse_type` meets with
`todo!()`. -/
def c2_type_cst : TSNode :=
  TSNode.mk "type_name" (mkRange (mkPos 0 6) (mkPos 0 10)) 6 10 []

/-- CST of a `constant_declaration` whose `type` field is a
`type_name`. -/
def c2_const_cst : TSNode :=
  TSNode.mk "constant_declaration" (mkRange (mkPos 0 0) (mkPos 0 17)) 0 17
    [(some "type", c2_type_cst),
     (some "name", TSNode.mk "identifier" (mkRange (mkPos 0 11) (mkPos 0 12))
       11 12 [])]

/-- CST root of the C2 `type_name` scenario. -/
def c2_cst : TSNode :=
  TSNode.mk "source_file" (mkRange (mkPos 0 0) (mkPos 0 17)) 0 17
    [(none, c2_const_cst)]

/-- CST root of the C2 missing-`type`-field scenario: the
`constant_declaration` has no `type` field, so
`child_by_field_name("type").unwrap()` panics. -/
def c2_missing_cst : TSNode :=
  TSNode.mk "source_file" (mkRange (mkPos 0 0) (mkPos 0 17)) 0 17
    [(none, TSNode.mk "constant_declaration" (mkRange (mkPos 0 0) (mkPos 0 17))
      0 17
      [(some "name", TSNode.mk "identifier" (mkRange (mkPos 0 11) (mkPos 0 12))
        11 12 [])])]

/-- CST root with a single top-level node of a kind the translator does
not handle; such nodes are silently dropped. -/
def c2_unknown_cst : TSNode :=
  TSNode.mk "source_file" (mkRange (mkPos 0 0) (mkPos 0 17)) 0 17
    [(none, TSNode.mk "parser_declaration" (mkRange (mkPos 0 0) (mkPos 0 17))
      0 17 [])]

/-- Source text of the C5 scenario. -/
def c5_source : String := "const int x = 5;"

/-- CST `base_type` node covering `int`. -/
def c5_type_cst : TSNode :=
  TSNode.mk "base_type" (mkRange (mkPos 0 6) (mkPos 0 9)) 6 9 []

/-- CST name node covering `x`. -/
def c5_name_cst : TSNode :=
  TSNode.mk "identifier" (mkRange (mkPos 0 10) (mkPos 0 11)) 10 11 []

/-- CST `constant_declaration` for `const int x = 5;` with `type`,
`name` and `value` fields. -/
def c5_const_cst : TSNode :=
  TSNode.mk "constant_declaration" (mkRange (mkPos 0 0) (mkPos 0 16)) 0 16
    [(none, TSNode.mk "const" (mkRange (mkPos 0 0) (mkPos 0 5)) 0 5 []),
     (some "type", c5_type_cst),
     (some "name", c5_name_cst),
     (some "value", TSNode.mk "number" (mkRange (mkPos 0 14) (mkPos 0 15))
       14 15 [])]

/-- CST root for `const int x = 5;`. -/
def c5_cst : TSNode :=
  TSNode.mk "source_file" (mkRange (mkPos 0 0) (mkPos 0 16)) 0 16
    [(none, c5_const_cst)]

/-- Expected `Type` AST child. -/
def c5_type_node : AstNode :=
  AstNode.mk (NodeKind.Type (MetaType.Base BaseType.Int))
    (mkRange (mkPos 0 6) (mkPos 0 9)) "int" []

/-- Expected `Name` AST child, with content `x`. -/
def c5_name_node : AstNode :=
  AstNode.mk NodeKind.Name (mkRange (mkPos 0 10) (mkPos 0 11)) "x" []

/-- Expected `ConstantDec` AST node spanning the whole statement. -/
def c5_const_node : AstNode :=
  AstNode.mk NodeKind.ConstantDec (mkRange (mkPos 0 0) (mkPos 0 16))
    c5_source [c5_type_node, c5_name_node]

/-- Expected AST for `const int x = 5;`. -/
def c5_ast : Ast :=
  { root := some (AstNode.mk NodeKind.Root (mkRange (mkPos 0 0) (mkPos 0 16))
      c5_source [c5_const_node]) }

/-- Scope predicate of the C5 scenario: the spec's `ConstantDec` rule
has `is_scope = false` and no other rule is involved. -/
def c5_sk : NodeKind → Bool := fun _ => false

/-- The constant symbol `x`, declared over the whole statement, typed
`int`. -/
def c5_x_symbol : Symbol :=
  Symbol.new "x" (mkRange (mkPos 0 0) (mkPos 0 16))
    (some (MetaType.Base BaseType.Int))

/-- Expected symbol table for the C5 scenario. -/
def c5_table : SymbolTable :=
  { root := some (ScopeTree.node
      ⟨mkRange (mkPos 0 0) (mkPos 0 16), mkSymbols [] [c5_x_symbol] [] []⟩
      []) }

theorem Position.lt_irrefl (p : Position) : Position.lt p p = false := by
  simp [Position.lt]

theorem Position.lt_iff (a b : Position) :
    Position.lt a b = true ↔
      (a.line < b.line ∨ (a.line = b.line ∧ a.character < b.character)) := by
  simp [Position.lt]

theorem Position.lt_asymm {a b : Position} (h : Position.lt a b = true) :
    Position.lt b a = false := by
  rw [Bool.eq_false_iff]
  intro hba
  rw [Position.lt_iff] at h hba
  omega

/-- Unfolding lemma for `Symbols.add`: the merged record appends the
position-filtered `other` buckets after the accumulated ones. -/
theorem Symbols.add_eq (s o : Symbols) (p : Position) :
    s.add o p =
      { types := s.types ++
          o.types.filter (fun x => Position.lt x.def_position.endPos p),
        constants := s.constants ++
          o.constants.filter (fun x => Position.lt x.def_position.endPos p),
        «variables» := s.«variables» ++
          o.«variables».filter (fun x => Position.lt x.def_position.endPos p),
        functions := s.functions ++
          o.functions.filter (fun x => Position.lt x.def_position.endPos p) } :=
  rfl

/-- The descent loop only ever appends: whatever it returns extends the
accumulated symbols bucket-wise on the right. -/
theorem scopeLoop_extends (ch : List ScopeTree) (p : Position) (s : Symbols) :
    ∃ e : Symbols, scopeLoop ch p s =
      { types := s.types ++ e.types,
        constants := s.constants ++ e.constants,
        «variables» := s.«variables» ++ e.«variables»,
        functions := s.functions ++ e.functions } := by
  induction ch, p, s using scopeLoop.induct with
  | case1 x symbols =>
    exact ⟨{ types := [], constants := [], «variables» := [], functions := [] },
      by simp [scopeLoop]⟩
  | case2 scope gch rest pos syms hguard ih =>
    obtain ⟨e, he⟩ := ih
    refine ⟨{ types := scope.symbols.types.filter
                (fun x => Position.lt x.def_position.endPos pos) ++ e.types,
              constants := scope.symbols.constants.filter
                (fun x => Position.lt x.def_position.endPos pos) ++ e.constants,
              «variables» := scope.symbols.«variables».filter
                (fun x => Position.lt x.def_position.endPos pos) ++ e.«variables»,
              functions := scope.symbols.functions.filter
                (fun x => Position.lt x.def_position.endPos pos) ++ e.functions }, ?_⟩
    rw [scopeLoop, if_pos hguard, he, Symbols.add_eq]
    simp [List.append_assoc]
  | case3 scope gch rest pos syms hguard ih =>
    obtain ⟨e, he⟩ := ih
    exact ⟨e, by rw [scopeLoop, if_neg hguard, he]⟩

/-- A position equal to a scope's range start or range end never passes
the strict containment guard. -/
theorem strictlyContains_boundary (r : Range) (p : Position)
    (h : p = r.start ∨ p = r.endPos) : strictlyContains r p = false := by
  rcases h with h | h <;> subst h <;>
    simp [strictlyContains, Position.lt_irrefl]

/-- When the position sits on the boundary of every child scope, the
descent loop does not enter any of them. -/
theorem scopeLoop_boundary (ch : List ScopeTree) (p : Position) (s : Symbols)
    (h : ∀ c ∈ ch, p = (ScopeTree.scope c).range.start ∨
      p = (ScopeTree.scope c).range.endPos) :
    scopeLoop ch p s = s := by
  induction ch with
  | nil => rw [scopeLoop]
  | cons c rest ih =>
    obtain ⟨scope, gch⟩ := c
    have hc := h (ScopeTree.node scope gch) (by simp)
    have hguard : strictlyContains scope.range p = false :=
      strictlyContains_boundary _ _ (by simpa [ScopeTree.scope] using hc)
    rw [scopeLoop, if_neg (by simp [hguard])]
    exact ih (fun c hcm => h c (by simp [hcm]))

/-- What one pass of the builder's child loop produces: each bucket is
extended, on the right and in source order, with exactly the symbols of
the matching declaration kinds; the range and the functions bucket are
untouched. -/
theorem parseChildren_spec (ch : List AstNode) (t : ScopeSymbolTable) :
    ∀ t', ScopeSymbolTable.parseChildren ch t = Except.ok t' →
      t'.range = t.range ∧
      t'.symbols.types = t.symbols.types ++ specTypes ch ∧
      t'.symbols.constants = t.symbols.constants ++ specConstants ch ∧
      t'.symbols.«variables» = t.symbols.«variables» ++ specVariables ch ∧
      t'.symbols.functions = t.symbols.functions := by
  induction ch, t using ScopeSymbolTable.parseChildren.induct with
  | case1 table =>
    intro t' h
    simp only [ScopeSymbolTable.parseChildren, Except.ok.injEq] at h
    subst h
    simp [specTypes, specConstants, specVariables]
  | case2 child rest table hkind hname =>
    intro t' h
    simp only [ScopeSymbolTable.parseChildren, hkind, hname] at h
    exact Except.noConfusion h
  | case3 child rest table hkind name_node hname ih =>
    intro t' h
    simp only [ScopeSymbolTable.parseChildren, hkind, hname] at h
    obtain ⟨h1, h2, h3, h4, h5⟩ := ih t' h
    refine ⟨h1, ?_, ?_, ?_, h5⟩ <;>
      simp_all [specTypes, specConstants, specVariables, declSymbolOf,
        List.filterMap_cons, hkind, hname]
  | case4 child rest table hkind hname =>
    intro t' h
    simp only [ScopeSymbolTable.parseChildren, hkind, hname] at h
    exact Except.noConfusion h
  | case5 child rest table hkind name_node hname ih =>
    intro t' h
    simp only [ScopeSymbolTable.parseChildren, hkind, hname] at h
    obtain ⟨h1, h2, h3, h4, h5⟩ := ih t' h
    refine ⟨h1, ?_, ?_, ?_, h5⟩ <;>
      simp_all [specTypes, specConstants, specVariables, declSymbolOf,
        List.filterMap_cons, hkind, hname]
  | case6 child rest table td hkind hname =>
    intro t' h
    simp only [ScopeSymbolTable.parseChildren, hkind, hname] at h
    exact Except.noConfusion h
  | case7 child rest table td hkind name_node hname ih =>
    intro t' h
    simp only [ScopeSymbolTable.parseChildren, hkind, hname] at h
    obtain ⟨h1, h2, h3, h4, h5⟩ := ih t' h
    refine ⟨h1, ?_, ?_, ?_, h5⟩ <;>
      simp_all [specTypes, specConstants, specVariables, declSymbolOf,
        List.filterMap_cons, hkind, hname]
  | case8 child rest table hk1 hk2 hk3 ih =>
    intro t' h
    have hstep : ScopeSymbolTable.parseChildren (child :: rest) table =
        ScopeSymbolTable.parseChildren rest table := by
      cases hk : child.kind with
      | ConstantDec => exact absurd hk hk1
      | VariableDec => exact absurd hk hk2
      | TypeDec td => exact absurd hk (hk3 td)
      | _ => simp only [ScopeSymbolTable.parseChildren, hk]
    rw [hstep] at h
    obtain ⟨h1, h2, h3, h4, h5⟩ := ih t' h
    have hst : specTypes (child :: rest) = specTypes rest := by
      cases hk : child.kind with
      | TypeDec td => exact absurd hk (hk3 td)
      | _ => simp [specTypes, List.filterMap_cons, hk]
    have hsc : specConstants (child :: rest) = specConstants rest := by
      cases hk : child.kind with
      | ConstantDec => exact absurd hk hk1
      | _ => simp [specConstants, List.filterMap_cons, hk]
    have hsv : specVariables (child :: rest) = specVariables rest := by
      cases hk : child.kind with
      | VariableDec => exact absurd hk hk2
      | _ => simp [specVariables, List.filterMap_cons, hk]
    exact ⟨h1, by rw [h2, hst], by rw [h3, hsc], by rw [h4, hsv], h5⟩

/-- Inversion for a successful monadic bind over `Except Panic`. -/
theorem bindOkInv {α β : Type} {x : Except Panic α} {f : α → Except Panic β}
    {b : β} (h : x >>= f = Except.ok b) :
    ∃ a, x = Except.ok a ∧ f a = Except.ok b := by
  cases x with
  | error e => simp [Bind.bind, Except.bind] at h
  | ok a => exact ⟨a, rfl, by simpa [Bind.bind, Except.bind] using h⟩

theorem scopesNoFunctions_append (a b : List ScopeTree) :
    scopesNoFunctions (a ++ b) = (scopesNoFunctions a && scopesNoFunctions b) := by
  induction a with
  | nil => simp [scopesNoFunctions]
  | cons c rest ih =>
    obtain ⟨sc, ch⟩ := c
    simp [scopesNoFunctions, ih, Bool.and_assoc]

/-- Inversion for a successful `SymbolTable::new`: the AST had a root,
the root scope parsed, the subscope forest parsed, and the table is the
resulting tree. -/
theorem SymbolTable.new_ok_inv {sk : NodeKind → Bool} {ast : Ast}
    {st : SymbolTable} (h : SymbolTable.new sk ast = Except.ok st) :
    ∃ root tbl subs, ast.root = some root ∧
      ScopeSymbolTable.parse root = Except.ok tbl ∧
      parse_scope_list sk root.children = Except.ok subs ∧
      st = { root := some (ScopeTree.node tbl subs) } := by
  cases hr : ast.root with
  | none => rw [SymbolTable.new, hr] at h; exact Except.noConfusion h
  | some root =>
    rw [SymbolTable.new, hr] at h
    obtain ⟨tbl, h1, h2⟩ := bindOkInv h
    obtain ⟨subs, h3, h4⟩ := bindOkInv h2
    simp only [pure, Except.pure, Except.ok.injEq] at h4
    exact ⟨root, tbl, subs, rfl, h1, h3, h4.symm⟩

/-- Every forest a successful `parse_scope_list` produces is free of
function symbols: the builder never fills the functions bucket. -/
theorem parse_scope_list_noFunctions (sk : NodeKind → Bool)
    (l : List AstNode) :
    ∀ ts, parse_scope_list sk l = Except.ok ts →
      scopesNoFunctions ts = true := by
  induction l using parse_scope_list.induct sk with
  | case1 =>
    intro ts h
    simp only [parse_scope_list, Except.ok.injEq] at h
    subst h
    rw [scopesNoFunctions]
  | case2 k r c g rest hsk ihRest ihG =>
    intro ts h
    rw [parse_scope_list, if_pos hsk] at h
    obtain ⟨tbl, h1, h2⟩ := bindOkInv h
    obtain ⟨subs, h3, h4⟩ := bindOkInv h2
    obtain ⟨firsts, h5, h6⟩ := bindOkInv h4
    simp only [pure, Except.pure, Except.ok.injEq] at h5
    subst h5
    obtain ⟨others, h7, h8⟩ := bindOkInv h6
    simp only [pure, Except.pure, Except.ok.injEq] at h8
    subst h8
    have htbl := parseChildren_spec _ _ _ h1
    rw [scopesNoFunctions_append, scopesNoFunctions, scopesNoFunctions]
    simp [ihG _ h3, ihRest _ h7, htbl.2.2.2.2, List.isEmpty_iff]
    rfl
  | case3 k r c g rest hsk ihRest ihG =>
    intro ts h
    rw [parse_scope_list, if_neg hsk] at h
    obtain ⟨firsts, h1, h2⟩ := bindOkInv h
    obtain ⟨others, h3, h4⟩ := bindOkInv h2
    simp only [pure, Except.pure, Except.ok.injEq] at h4
    subst h4
    rw [scopesNoFunctions_append]
    simp [ihG _ h1, ihRest _ h3]

/-- The descent loop never invents a function symbol: over a forest free
of function symbols it keeps the functions bucket empty. -/
theorem scopeLoop_noFunctions (ch : List ScopeTree) (p : Position)
    (s : Symbols) (hch : scopesNoFunctions ch = true)
    (hs : s.functions = []) : (scopeLoop ch p s).functions = [] := by
  induction ch, p, s using scopeLoop.induct with
  | case1 x symbols => rw [scopeLoop]; exact hs
  | case2 scope gch rest pos syms hguard ih =>
    rw [scopeLoop, if_pos hguard]
    rw [scopesNoFunctions] at hch
    simp only [Bool.and_eq_true, List.isEmpty_iff] at hch
    exact ih hch.1.2 (by simp [Symbols.add_eq, hs, hch.1.1])
  | case3 scope gch rest pos syms hguard ih =>
    rw [scopeLoop, if_neg hguard]
    rw [scopesNoFunctions] at hch
    simp only [Bool.and_eq_true, List.isEmpty_iff] at hch
    exact ih hch.2 hs

theorem Position.lt_trans {a b c : Position} (h1 : Position.lt a b = true)
    (h2 : Position.lt b c = true) : Position.lt a c = true := by
  rw [Position.lt_iff] at h1 h2 ⊢
  omega

theorem Position.lt_ne {a b : Position} (h : Position.lt a b = true) :
    a ≠ b := by
  intro he
  subst he
  rw [Position.lt_irrefl] at h
  exact Bool.noConfusion h

/-- C1: each descent step merges the entered scope's symbols after
removing exactly those whose declaration range ends at or after the
query position (`Symbols.add` keeps a symbol iff its end lies strictly
before the position); consequently, in a block scope with `var a` at
`pa`, a query at `pu` and `var b` at `pb` with `pa < pu < pb`, the
returned symbols include `a` and exclude `b`. -/
theorem c1_descent_filters_entered_scope :
    (∀ (s o : Symbols) (p : Position), s.add o p =
      mkSymbols
        (s.types ++ o.types.filter (fun x => Position.lt x.def_position.endPos p))
        (s.constants ++ o.constants.filter (fun x => Position.lt x.def_position.endPos p))
        (s.«variables» ++ o.«variables».filter (fun x => Position.lt x.def_position.endPos p))
        (s.functions ++ o.functions.filter (fun x => Position.lt x.def_position.endPos p))) ∧
    (∀ (a b : String) (pa pu pb : Position),
      Position.lt pa pu = true → Position.lt pu pb = true →
      ∃ s, SymbolTable.get_symbols_in_scope (c1_block_table a b pa pb) pu =
          some s ∧
        c1_var_a a pa ∈ s.«variables» ∧ c1_var_b b pb ∉ s.«variables») := by
  refine ⟨fun s o p => Symbols.add_eq s o p, ?_⟩
  intro a b pa pu pb h1 h2
  have hb : Position.lt pb pu = false := Position.lt_asymm h2
  have hab : pa ≠ pb := Position.lt_ne (Position.lt_trans h1 h2)
  refine ⟨mkSymbols [] [] [c1_var_a a pa] [], ?_, ?_, ?_⟩
  · simp [c1_block_table, SymbolTable.get_symbols_in_scope, scopeLoop,
      strictlyContains, h1, h2, Symbols.add_eq, c1_var_a, c1_var_b,
      Symbol.new, mkSymbols, mkRange, hb]
    exact ⟨rfl, rfl, rfl, rfl⟩
  · simp [mkSymbols]
  · simp [mkSymbols, c1_var_a, c1_var_b, Symbol.new, mkRange, Range.mk.injEq]
    intro _ he
    exact absurd he.symm hab

/-- Witness for C1 at `a`, `b`, `pa = (0,0)`, `pu = (0,5)`,
`pb = (1,0)`. -/
theorem c1_descent_filters_entered_scope_witness :
    Position.lt (mkPos 0 0) (mkPos 0 5) = true ∧
    Position.lt (mkPos 0 5) (mkPos 1 0) = true ∧
    ∃ s, SymbolTable.get_symbols_in_scope
        (c1_block_table "a" "b" (mkPos 0 0) (mkPos 1 0)) (mkPos 0 5) =
        some s ∧
      c1_var_a "a" (mkPos 0 0) ∈ s.«variables» ∧
      c1_var_b "b" (mkPos 1 0) ∉ s.«variables» :=
  ⟨by decide, by decide,
    c1_descent_filters_entered_scope.2 "a" "b" _ _ _ (by decide) (by decide)⟩

/-- C3: `get_symbol_at_pos` unconditionally panics (`todo!()`) instead
of returning an absent value, while `get_symbols_in_scope` and
`get_top_level_symbols` do return `none` when nothing matches (here: an
empty, rootless table). -/
theorem c3_get_symbol_at_pos_panics :
    SymbolTable.get_symbol_at_pos (default : SymbolTable) "x" (mkPos 0 0) =
      Except.error Panic.notYetImplemented ∧
    SymbolTable.get_symbols_in_scope (default : SymbolTable) (mkPos 0 0) =
      none ∧
    SymbolTable.get_top_level_symbols (default : SymbolTable) = none :=
  ⟨rfl, rfl, rfl⟩

/-- C4: whatever `get_symbols_in_scope` returns extends the root
scope's symbol buckets on the right — the root symbols are taken in
full, unfiltered, at every position, so each of them appears in the
result. -/
theorem c4_root_symbols_unfiltered :
    ∀ (rootScope : ScopeSymbolTable) (children : List ScopeTree)
      (p : Position) (s : Symbols),
      SymbolTable.get_symbols_in_scope
          { root := some (ScopeTree.node rootScope children) } p = some s →
      (∃ e : Symbols,
        s.types = rootScope.symbols.types ++ e.types ∧
        s.constants = rootScope.symbols.constants ++ e.constants ∧
        s.«variables» = rootScope.symbols.«variables» ++ e.«variables» ∧
        s.functions = rootScope.symbols.functions ++ e.functions) ∧
      (∀ x ∈ rootScope.symbols.types, x ∈ s.types) ∧
      (∀ x ∈ rootScope.symbols.constants, x ∈ s.constants) ∧
      (∀ x ∈ rootScope.symbols.«variables», x ∈ s.«variables») ∧
      (∀ x ∈ rootScope.symbols.functions, x ∈ s.functions) := by
  intro rootScope children p s h
  simp only [SymbolTable.get_symbols_in_scope, Option.some.injEq] at h
  subst h
  obtain ⟨e, he⟩ := scopeLoop_extends children p rootScope.symbols
  rw [he]
  exact ⟨⟨e, rfl, rfl, rfl, rfl⟩,
    fun x hx => List.mem_append_left _ hx,
    fun x hx => List.mem_append_left _ hx,
    fun x hx => List.mem_append_left _ hx,
    fun x hx => List.mem_append_left _ hx⟩

/-- Witness for C4: at position (1,0), strictly inside the nested
block, the root constant declared later (line 5) still appears. -/
theorem c4_root_symbols_unfiltered_witness :
    SymbolTable.get_symbols_in_scope c4_table (mkPos 1 0) =
      some (mkSymbols [] [c4_root_sym] [c4_block_sym] []) ∧
    c4_root_sym ∈ (mkSymbols [] [c4_root_sym] [c4_block_sym] []).constants := by
  have h : SymbolTable.get_symbols_in_scope c4_table (mkPos 1 0) =
      some (mkSymbols [] [c4_root_sym] [c4_block_sym] []) := by
    simp [c4_table, SymbolTable.get_symbols_in_scope, scopeLoop,
      strictlyContains, Symbols.add_eq, c4_root_sym, c4_block_sym,
      Symbol.new, mkSymbols, mkRange, mkPos, Position.lt]
  exact ⟨h, (c4_root_symbols_unfiltered _ _ _ _ h).2.2.1 c4_root_sym
    (by simp [mkSymbols])⟩

/-- C10: a position equal to a child scope's range start or range end
does not pass the strict containment guard, and when the query position
lies on the boundary of every child scope the walk stays in the
enclosing scope and returns exactly its symbols. -/
theorem c10_boundary_not_inside :
    (∀ (r : Range) (p : Position), (p = r.start ∨ p = r.endPos) →
      strictlyContains r p = false) ∧
    (∀ (rootScope : ScopeSymbolTable) (children : List ScopeTree)
      (p : Position),
      (∀ c ∈ children, p = (ScopeTree.scope c).range.start ∨
        p = (ScopeTree.scope c).range.endPos) →
      SymbolTable.get_symbols_in_scope
          { root := some (ScopeTree.node rootScope children) } p =
        some rootScope.symbols) := by
  refine ⟨strictlyContains_boundary, ?_⟩
  intro rootScope children p h
  simp only [SymbolTable.get_symbols_in_scope, Option.some.injEq]
  exact scopeLoop_boundary children p rootScope.symbols h

/-- Witness for C10: a query exactly at the child scope's start
boundary returns only the root scope's symbols. -/
theorem c10_boundary_not_inside_witness :
    strictlyContains (mkRange (mkPos 1 0) (mkPos 3 0)) (mkPos 1 0) = false ∧
    SymbolTable.get_symbols_in_scope c10_table (mkPos 1 0) =
      some (mkSymbols [] [c4_root_sym] [] []) :=
  ⟨c10_boundary_not_inside.1 _ _ (Or.inl rfl),
    c10_boundary_not_inside.2
      ⟨mkRange (mkPos 0 0) (mkPos 9 0), mkSymbols [] [c4_root_sym] [] []⟩
      _ _ (by
        intro c hc
        simp only [List.mem_singleton] at hc
        subst hc
        exact Or.inl rfl)⟩

/-- The default symbol buckets are all empty. -/
theorem Symbols.default_eq : (default : Symbols) = mkSymbols [] [] [] [] := rfl

/-- Structure extensionality for the symbol buckets. -/
theorem Symbols.ext_fields {x y : Symbols} (h1 : x.types = y.types)
    (h2 : x.constants = y.constants) (h3 : x.«variables» = y.«variables»)
    (h4 : x.functions = y.functions) : x = y := by
  cases x
  cases y
  simp_all

/-- C8: for an AST whose root children are all declarations and
introduce no nested scopes, `get_top_level_symbols` returns exactly
those declarations' symbols, bucketed by category in declaration
(source) order, with no position filtering. -/
theorem c8_top_level_declaration_order :
    ∀ (sk : NodeKind → Bool) (root : AstNode) (st : SymbolTable),
      (∀ c ∈ root.children, isDeclKind c.kind = true) →
      (∀ c ∈ root.children, sk c.kind = false) →
      SymbolTable.new sk { root := some root } = Except.ok st →
      st.get_top_level_symbols =
        some (mkSymbols (specTypes root.children) (specConstants root.children)
          (specVariables root.children) []) := by
  intro sk root st hdecl hsk h
  obtain ⟨root', tbl, subs, hr, hp, hl, hst⟩ := SymbolTable.new_ok_inv h
  have hroot : root' = root := by
    have : some root = some root' := hr
    exact (Option.some.injEq _ _ ▸ this).symm
  subst hroot
  subst hst
  rw [ScopeSymbolTable.parse] at hp
  obtain ⟨_, h2, h3, h4, h5⟩ := parseChildren_spec _ _ _ hp
  simp only [SymbolTable.get_top_level_symbols]
  exact congrArg some (Symbols.ext_fields (by simpa [mkSymbols] using h2)
    (by simpa [mkSymbols] using h3) (by simpa [mkSymbols] using h4)
    (by simpa [mkSymbols] using h5))

/-- With a scope predicate that never fires, the subscope walk finds
nothing. -/
theorem parse_scope_list_no_scopes (sk : NodeKind → Bool)
    (hsk : ∀ k, sk k = false) (l : List AstNode) :
    parse_scope_list sk l = Except.ok [] := by
  induction l using parse_scope_list.induct sk with
  | case1 => simp [parse_scope_list]
  | case2 k r c g rest hs ihRest ihG => rw [hsk k] at hs; exact Bool.noConfusion hs
  | case3 k r c g rest hs ihRest ihG =>
    rw [parse_scope_list, if_neg hs, ihG]
    simp only [Bind.bind, Except.bind, ihRest, pure, Except.pure]
    rfl

/-- Evaluation of the builder on the four-declaration witness AST,
staged so that the well-founded subscope walk is rewritten away before
the remaining computation is checked definitionally. -/
theorem c8_new_eval : SymbolTable.new c8_sk { root := some c8_root } =
    Except.ok c8_table := by
  have h2 := parse_scope_list_no_scopes c8_sk (fun _ => rfl) c8_root.children
  show (do
    let table ← ScopeSymbolTable.parse c8_root
    let subs ← parse_scope_list c8_sk c8_root.children
    pure { root := some (ScopeTree.node table subs) } :
      Except Panic SymbolTable) = Except.ok c8_table
  rw [h2, show ScopeSymbolTable.parse c8_root = Except.ok c8_scope from rfl]
  rfl

/-- Witness for C8: the four-declaration file builds successfully and
the top-level query lists the constants `c1, c2`, the variable `v1` and
the type `t1` in source order. -/
theorem c8_top_level_declaration_order_witness :
    (∀ c ∈ c8_root.children, isDeclKind c.kind = true) ∧
    (∀ c ∈ c8_root.children, c8_sk c.kind = false) ∧
    SymbolTable.new c8_sk { root := some c8_root } = Except.ok c8_table ∧
    c8_table.get_top_level_symbols =
      some (mkSymbols (specTypes c8_root.children)
        (specConstants c8_root.children) (specVariables c8_root.children) []) := by
  exact ⟨by decide, by decide, c8_new_eval,
    c8_top_level_declaration_order c8_sk c8_root c8_table (by decide)
      (by decide) c8_new_eval⟩

/-- C9: a built symbol table never holds a function symbol — no scope's
functions bucket is populated, and neither query ever returns one. -/
theorem c9_functions_bucket_always_empty :
    ∀ (sk : NodeKind → Bool) (ast : Ast) (st : SymbolTable),
      SymbolTable.new sk ast = Except.ok st →
      st.noFunctionSymbols = true ∧
      (∀ s, st.get_top_level_symbols = some s → s.functions = []) ∧
      (∀ p s, st.get_symbols_in_scope p = some s → s.functions = []) := by
  intro sk ast st h
  obtain ⟨root, tbl, subs, hr, hp, hl, hst⟩ := SymbolTable.new_ok_inv h
  subst hst
  rw [ScopeSymbolTable.parse] at hp
  have hfun : tbl.symbols.functions = [] := by
    simpa using (parseChildren_spec _ _ _ hp).2.2.2.2
  have hsubs := parse_scope_list_noFunctions sk root.children subs hl
  refine ⟨?_, ?_, ?_⟩
  · simp only [SymbolTable.noFunctionSymbols]
    rw [scopesNoFunctions, scopesNoFunctions]
    simp [hsubs, hfun]
  · intro s hs
    simp only [SymbolTable.get_top_level_symbols, Option.some.injEq] at hs
    subst hs
    exact hfun
  · intro p s hs
    simp only [SymbolTable.get_symbols_in_scope, Option.some.injEq] at hs
    subst hs
    exact scopeLoop_noFunctions subs p tbl.symbols hsubs hfun

/-- Witness for C9 on the four-declaration scenario table. -/
theorem c9_functions_bucket_always_empty_witness :
    SymbolTable.new c8_sk { root := some c8_root } = Except.ok c8_table ∧
    c8_table.noFunctionSymbols = true := by
  exact ⟨c8_new_eval,
    (c9_functions_bucket_always_empty c8_sk { root := some c8_root } c8_table
      c8_new_eval).1⟩

/-- C7: `update(ast)` ignores the current table and rebuilds from the
AST alone, so two successive updates with the same AST produce the same
manager, and every query — `get_symbols_at_pos` and `get_symbol_at_pos`,
at every position — answers identically on the two results. -/
theorem c7_update_idempotent :
    ∀ (sk : NodeKind → Bool) (ast : Ast) (m0 m1 m2 : SymbolTableManager),
      SymbolTableManager.update sk m0 ast = Except.ok m1 →
      SymbolTableManager.update sk m1 ast = Except.ok m2 →
      m1 = m2 ∧
      (∀ p, m1.get_symbols_at_pos p = m2.get_symbols_at_pos p) ∧
      (∀ n p, m1.get_symbol_at_pos n p = m2.get_symbol_at_pos n p) := by
  intro sk ast m0 m1 m2 h1 h2
  have heq : (Except.ok m1 : Except Panic SymbolTableManager) =
      Except.ok m2 := by
    rw [← h1, ← h2]
    rfl
  injection heq with h12
  subst h12
  exact ⟨rfl, fun p => rfl, fun n p => rfl⟩

/-- Evaluation of the builder on the bare-root witness AST, staged so
the well-founded subscope walk is rewritten away first. -/
theorem c7_new_eval : SymbolTable.new c8_sk c7_ast =
    Except.ok c7_manager1.symbol_table := by
  show (do
    let table ← ScopeSymbolTable.parse
      (AstNode.mk NodeKind.Root (mkRange (mkPos 0 0) (mkPos 1 0)) "" [])
    let subs ← parse_scope_list c8_sk
      (AstNode.mk NodeKind.Root (mkRange (mkPos 0 0) (mkPos 1 0)) "" []).children
    pure { root := some (ScopeTree.node table subs) } :
      Except Panic SymbolTable) = Except.ok c7_manager1.symbol_table
  rw [parse_scope_list_no_scopes c8_sk (fun _ => rfl),
    show ScopeSymbolTable.parse
        (AstNode.mk NodeKind.Root (mkRange (mkPos 0 0) (mkPos 1 0)) "" []) =
      Except.ok ⟨mkRange (mkPos 0 0) (mkPos 1 0), default⟩ from rfl]
  rfl

/-- Evaluation of `update` on the bare-root witness AST: the manager is
rebuilt from the AST alone, whatever the current manager is. -/
theorem c7_update_eval (m : SymbolTableManager) :
    SymbolTableManager.update c8_sk m c7_ast = Except.ok c7_manager1 := by
  show (do
    let symbol_table ← SymbolTable.new c8_sk c7_ast
    pure { symbol_table := symbol_table } :
      Except Panic SymbolTableManager) = Except.ok c7_manager1
  rw [c7_new_eval]
  rfl

/-- Witness for C7: two successive updates from the same AST yield the
same manager and identical query answers. -/
theorem c7_update_idempotent_witness :
    SymbolTableManager.update c8_sk ⟨default⟩ c7_ast =
      Except.ok c7_manager1 ∧
    SymbolTableManager.update c8_sk c7_manager1 c7_ast =
      Except.ok c7_manager1 ∧
    c7_manager1.get_symbols_at_pos (mkPos 0 0) =
      c7_manager1.get_symbols_at_pos (mkPos 0 0) :=
  ⟨c7_update_eval ⟨default⟩, c7_update_eval c7_manager1,
    (c7_update_idempotent c8_sk c7_ast ⟨default⟩ c7_manager1 c7_manager1
      (c7_update_eval ⟨default⟩) (c7_update_eval c7_manager1)).2.1
      (mkPos 0 0)⟩

/-- C6: `load` on a document the deserializer rejects panics
(`parseRulesFailed`); `load` after a successful load panics (either at
the parse step or at the already-set cell); `get` before any successful
load panics (`notLoaded`) rather than returning a default rule set. -/
theorem c6_load_get_fail_loudly :
    (∀ (parseRuleSet : String → Option LanguageDefinition)
       (inst : Option LanguageDefinition) (text : String),
      parseRuleSet ("#![enable(unwrap_variant_newtypes)]\n" ++ text) = none →
      LanguageDefinition.load parseRuleSet inst text =
        Except.error Panic.parseRulesFailed) ∧
    (∀ (parseRuleSet : String → Option LanguageDefinition)
       (d : LanguageDefinition) (text : String),
      ∃ e, LanguageDefinition.load parseRuleSet (some d) text =
        Except.error e) ∧
    LanguageDefinition.get none = Except.error Panic.notLoaded := by
  refine ⟨?_, ?_, rfl⟩
  · intro p inst text h
    simp [LanguageDefinition.load, h]
  · intro p d text
    cases hp : p ("#![enable(unwrap_variant_newtypes)]\n" ++ text) with
    | none =>
      exact ⟨Panic.parseRulesFailed, by simp [LanguageDefinition.load, hp]⟩
    | some parsed =>
      exact ⟨Panic.alreadyLoaded, by simp [LanguageDefinition.load, hp]⟩

/-- Witness for C6 with a deserializer that rejects everything, the
empty document and an empty already-loaded definition. -/
theorem c6_load_get_fail_loudly_witness :
    LanguageDefinition.load (fun _ => none) none "" =
      Except.error Panic.parseRulesFailed ∧
    (∃ e, LanguageDefinition.load (fun _ => none)
      (some { symbol_types := [], ast_rules := [] }) "" = Except.error e) ∧
    LanguageDefinition.get none = Except.error Panic.notLoaded :=
  ⟨c6_load_get_fail_loudly.1 (fun _ => none) none "" rfl,
    c6_load_get_fail_loudly.2.1 (fun _ => none)
      { symbol_types := [], ast_rules := [] } "",
    c6_load_get_fail_loudly.2.2⟩

/-- C2 (failing-input evaluation): `translate` aborts the whole file
with a panic on a constant declaration whose type is of an unhandled
kind (`todo!()`) or whose `type` field is missing (`unwrap` on `None`),
recording no diagnostic; only an unrecognized top-level node kind is
dropped with translation continuing. -/
theorem c2_translate_panics_on_malformed :
    TreesitterTranslator.translate c2_source c2_cst =
      Except.error Panic.notYetImplemented ∧
    TreesitterTranslator.translate c2_source c2_missing_cst =
      Except.error Panic.unwrapNone ∧
    TreesitterTranslator.translate c2_source c2_unknown_cst =
      Except.ok { root := some (AstNode.mk NodeKind.Root
        (mkRange (mkPos 0 0) (mkPos 0 17)) c2_source []) } :=
  ⟨rfl, rfl, rfl⟩

/-- Evaluation of the builder on the `const int x = 5;` AST, staged so
the well-founded subscope walk is rewritten away first. -/
theorem c5_new_eval : SymbolTable.new c5_sk c5_ast = Except.ok c5_table := by
  show (do
    let table ← ScopeSymbolTable.parse
      (AstNode.mk NodeKind.Root (mkRange (mkPos 0 0) (mkPos 0 16))
        c5_source [c5_const_node])
    let subs ← parse_scope_list c5_sk
      (AstNode.mk NodeKind.Root (mkRange (mkPos 0 0) (mkPos 0 16))
        c5_source [c5_const_node]).children
    pure { root := some (ScopeTree.node table subs) } :
      Except Panic SymbolTable) = Except.ok c5_table
  rw [parse_scope_list_no_scopes c5_sk (fun _ => rfl),
    show ScopeSymbolTable.parse
        (AstNode.mk NodeKind.Root (mkRange (mkPos 0 0) (mkPos 0 16))
          c5_source [c5_const_node]) =
      Except.ok ⟨mkRange (mkPos 0 0) (mkPos 0 16),
        mkSymbols [] [c5_x_symbol] [] []⟩ from rfl]
  rfl

/-- C5: translating `const int x = 5;` yields exactly one `ConstantDec`
node with exactly a `Type` child and a `Name` child of content `x`, and
building the symbol table from that AST puts exactly the one constant
symbol `x`, spanning the whole statement, into the root scope. -/
theorem c5_const_int_x_scenario :
    TreesitterTranslator.translate c5_source c5_cst = Except.ok c5_ast ∧
    (c5_ast.root.map AstNode.children) = some [c5_const_node] ∧
    c5_const_node.children = [c5_type_node, c5_name_node] ∧
    c5_name_node.content = "x" ∧
    SymbolTable.new c5_sk c5_ast = Except.ok c5_table ∧
    c5_table.get_top_level_symbols =
      some (mkSymbols [] [c5_x_symbol] [] []) := by
  exact ⟨rfl, rfl, rfl, rfl, c5_new_eval, rfl⟩
end Noname



